import Mathlib

/-!
Shallow embedding of `poetry/core/masonry/builders/wheel.py` (the wheel
builder of poetry-core) and verification of its specification claims.

Modelling conventions:
* file contents are `List Nat` (one natural per byte);
* the filesystem seen by one build invocation is immutable and is given by
  the functions in `FsEnv` (`fs` for `open(...).read()`, `st_mode`/`st_size`
  for `os.stat`, `is_dir` for `Path.is_dir`);
* the host is POSIX (`os.sep = "/"`), so the separator replacement in
  `_add_file` is the identity and is omitted;
* `hashlib.sha256` is an external library primitive and is carried as the
  abstract digest function `FsEnv.sha256`; the url-safe base64 encoding and
  the padding strip are embedded concretely;
* the ZIP container is modelled as the ordered list of written entries
  (name, bytes, date_time, external_attr), which is exactly the information
  `zipfile.ZipFile.writestr` receives from this code.
-/

namespace WheelSpec

/-- A sequence of bytes (each conceptually `< 256`). -/
abbrev Bytes := List Nat

/-- Code-point lexicographic `≤` on character lists, the order Python uses
when comparing `str` / `pathlib.Path` values (used by `sorted`). -/
def lexLeChars : List Char → List Char → Bool
  | [], _ => true
  | _ :: _, [] => false
  | a :: as, b :: bs =>
    if a.toNat < b.toNat then true
    else if b.toNat < a.toNat then false
    else lexLeChars as bs

/-- Lexicographic `≤` on strings by code points (Python's `str` order). -/
def strLe (a b : String) : Bool := lexLeChars a.data b.data

/-- Python's `sorted` on a list of strings. -/
def sortStrings (l : List String) : List String :=
  List.insertionSort (fun a b => strLe a b = true) l

/-- Strict code-point lexicographic `<` on character lists (Python's
`str` `<`). -/
def lexLtChars : List Char → List Char → Bool
  | [], [] => false
  | [], _ :: _ => true
  | _ :: _, [] => false
  | a :: as, b :: bs =>
    if a.toNat < b.toNat then true
    else if b.toNat < a.toNat then false
    else lexLtChars as bs

/-- Strict lexicographic `<` on strings by code points. -/
def strLt (a b : String) : Bool := lexLtChars a.data b.data

/-- Split a character list at `/` separators; the first argument holds
the current component, reversed. -/
def splitSlash : List Char → List Char → List String
  | acc, [] => [String.mk acc.reverse]
  | acc, c :: cs =>
    if c == '/' then String.mk acc.reverse :: splitSlash [] cs
    else splitSlash (c :: acc) cs

/-- `PurePath.parts` of a `/`-separated relative path (as produced by
`relative_to`: no repeated or trailing separators): its component list. -/
def pathParts (s : String) : List String := splitSlash [] s.data

/-- Lexicographic `≤` on component lists, components compared by code
points.  This is the order `pathlib` induces: on the Pythons this code
supports, `PurePath.__lt__` compares the `_cparts` component lists (on
POSIX, the raw parts), not the joined string. -/
def partsLe : List String → List String → Bool
  | [], _ => true
  | _ :: _, [] => false
  | a :: as, b :: bs =>
    if strLt a b then true
    else if strLt b a then false
    else partsLe as bs

/-- The order `sorted` uses on `pathlib.Path` keys: component-wise
lexicographic on the path's parts. -/
def pathLe (a b : String) : Bool := partsLe (pathParts a) (pathParts b)

/-- Python's `sorted(..., key=lambda x: x[1])` on (source, archive path)
pairs, as used in `_copy_module`.  The keys are `pathlib.Path` objects,
so the sort order is the component-wise `pathLe`, not the joined-string
order. -/
def sortByRel (l : List (String × String)) : List (String × String) :=
  List.insertionSort (fun a b => pathLe a.2 b.2 = true) l

/-- Python's `pat in s` substring test. -/
def containsSub (pat s : String) : Bool :=
  s.data.tails.any (fun t => pat.data.isPrefixOf t)

/-- `Path.suffix == ".pyc"` modelled as a suffix test on the file name. -/
def hasPycSuffix (s : String) : Bool := (".pyc").data.isSuffixOf s.data

/-- `Path.relative_to(base)`: strip `base ++ "/"` from the front of the
path (identity if `base` is not a proper prefix; that branch is the
defensive fallback, `pathlib` would raise there). -/
def relativeTo (base file : String) : String :=
  if (base ++ ("/")).data.isPrefixOf file.data then
    String.mk (file.data.drop (base ++ ("/")).data.length)
  else file

/-- The url-safe base64 alphabet (RFC 4648 §5), as used by
`base64.urlsafe_b64encode`. -/
def b64Chars : List Char :=
  ("ABCDEFGHIJKLMNOPQRSTUVWXYZabcdefghijklmnopqrstuvwxyz0123456789-_").data

/-- The url-safe base64 digit for a 6-bit value. -/
def b64Char (n : Nat) : Char := b64Chars.getD n 'A'

/-- `base64.urlsafe_b64encode`: bytes to base64 characters, with `=`
padding to a multiple of four characters. -/
def b64urlEncode : Bytes → List Char
  | [] => []
  | [b1] => [b64Char (b1 / 4), b64Char (b1 % 4 * 16), '=', '=']
  | [b1, b2] =>
    [b64Char (b1 / 4), b64Char (b1 % 4 * 16 + b2 / 16), b64Char (b2 % 16 * 4), '=']
  | b1 :: b2 :: b3 :: rest =>
    b64Char (b1 / 4) :: b64Char (b1 % 4 * 16 + b2 / 16) ::
      b64Char (b2 % 16 * 4 + b3 / 64) :: b64Char (b3 % 64) :: b64urlEncode rest

/-- Python's `str.rstrip("=")`: drop every trailing `=` character. -/
def rstripEq (l : List Char) : List Char :=
  (l.reverse.dropWhile (fun c => c == '=')).reverse

/-- The 8 KiB read loop of `_add_file`: split a byte sequence into the
chunks successively fed to `hashsum.update`. -/
def toChunks8192 : Bytes → List Bytes
  | [] => []
  | x :: xs => ((x :: xs).take 8192) :: toChunks8192 (xs.drop 8191)
termination_by l => l.length
decreasing_by simp; omega

/-- UTF-8 encoding of a generated text file (`sio.getvalue().encode("utf-8")`). -/
def strToBytes (s : String) : Bytes := s.toUTF8.toList.map (fun b => b.toNat)

/-! ## Version constraints

`supports_python2` calls `self._package.python_constraint.allows_any(
parse_constraint(">=2.0.0 <3.0.0"))`.  The semver machinery lives in
`poetry.core.semver`, outside the sources under verification, so it is
modelled from the spec below. -/

/-- A release version, `major.minor.patch`. -/
structure SemVersion where
  major : Nat
  minor : Nat
  patch : Nat
deriving DecidableEq

/-- Strict version order (lexicographic on `major`, `minor`, `patch`). -/
def verLtP (a b : SemVersion) : Prop :=
  a.major < b.major ∨
    (a.major = b.major ∧
      (a.minor < b.minor ∨ (a.minor = b.minor ∧ a.patch < b.patch)))

instance (a b : SemVersion) : Decidable (verLtP a b) := by
  unfold verLtP; infer_instance

/-- Non-strict version order. -/
def verLeP (a b : SemVersion) : Prop :=
  verLtP a b ∨ (a.major = b.major ∧ a.minor = b.minor ∧ a.patch = b.patch)

instance (a b : SemVersion) : Decidable (verLeP a b) := by
  unfold verLeP; infer_instance

/-- Modelled from the spec: a parsed version constraint is a union of
half-open intervals `[lo, hi)`; `parse_constraint(">=2.0.0 <3.0.0")` is the
single interval `[2.0.0, 3.0.0)` (`poetry.core.semver` is not under the
sources being verified). -/
structure VerRange where
  lo : SemVersion
  hi : SemVersion
deriving DecidableEq

/-- A constraint: union of half-open version intervals. -/
abbrev VerConstraint := List VerRange

/-- Membership of a version in one interval. -/
def inRange (r : VerRange) (v : SemVersion) : Prop := verLeP r.lo v ∧ verLtP v r.hi

instance (r : VerRange) (v : SemVersion) : Decidable (inRange r v) := by
  unfold inRange; infer_instance

/-- A constraint allows a version when some of its intervals contains it. -/
def allowsVer (c : VerConstraint) (v : SemVersion) : Prop := ∃ r ∈ c, inRange r v

instance (c : VerConstraint) (v : SemVersion) : Decidable (allowsVer c v) := by
  unfold allowsVer; infer_instance

/-- The larger of two versions. -/
def vmax (a b : SemVersion) : SemVersion := if verLeP a b then b else a

/-- Non-emptiness of the intersection of two half-open intervals. -/
def rangesIntersect (r1 r2 : VerRange) : Bool :=
  decide (verLtP (vmax r1.lo r2.lo) r1.hi) && decide (verLtP (vmax r1.lo r2.lo) r2.hi)

/-- Modelled from the spec: `VersionConstraint.allows_any`, true when the
two unions of intervals have a common version. -/
def allows_any (c1 c2 : VerConstraint) : Bool :=
  c1.any (fun r1 => c2.any (fun r2 => rangesIntersect r1 r2))

/-- The constraint `>=2.0.0 <3.0.0` from `supports_python2`. -/
def legacyRange : VerRange := ⟨⟨2, 0, 0⟩, ⟨3, 0, 0⟩⟩

/-- `WheelBuilder.supports_python2` (wheel.py:213): whether the package's
python constraint intersects `>=2.0.0 <3.0.0`. -/
def supports_python2 (c : VerConstraint) : Bool := allows_any c [legacyRange]

/-! ## Data model -/

/-- One line of the RECORD manifest: archive path, url-safe-base64 SHA-256
hash (padding stripped), size in bytes. -/
structure RecordEntry where
  path : String
  hash : String
  size : Nat
deriving DecidableEq

/-- One entry written into the ZIP archive: the information `writestr`
receives (name, bytes, `ZipInfo.date_time`, `ZipInfo.external_attr`). -/
structure ZipEntry where
  path : String
  data : Bytes
  dateTime : Nat × Nat × Nat × Nat × Nat × Nat
  externalAttr : Nat
deriving DecidableEq

/-- The mutable state of one `WheelBuilder` run: the open archive (entries
in physical write order) and `self._records`. -/
structure BuilderState where
  entries : List ZipEntry
  records : List RecordEntry
deriving DecidableEq

/-- The fresh state at the start of a build (`self._records = []`, empty
archive). -/
def emptyState : BuilderState := ⟨[], []⟩

/-- The names already written into the archive (`wheel.namelist()`). -/
def namelist (st : BuilderState) : List String := st.entries.map (fun e => e.path)

/-- The environment a build runs in.  `fs`, `st_mode`, `is_dir` describe
the immutable filesystem snapshot; `is_excluded` is the exclusion
predicate inherited from `Builder`; `sha256` is the `hashlib.sha256`
digest primitive; `clock` and `mtimes` are the wall clock and the source
file modification times, which the builder has access to but never
consults (they exist here so that independence from them is a statable
property). -/
structure FsEnv where
  fs : String → Bytes
  st_mode : String → Nat
  is_dir : String → Bool
  is_excluded : String → Bool
  sha256 : Bytes → Bytes
  clock : Nat
  mtimes : String → Nat

/-- One include rule from `self._module.includes`: its declared formats,
the files it matched after `refresh()`, whether it is a `PackageInclude`,
whether it carries a `source` root, and its `base` directory. -/
structure IncludeRule where
  formats : List String
  elements : List String
  isPackage : Bool
  source : Bool
  base : String
deriving DecidableEq

/-- The project configuration consumed by the builder (supplied by the
out-of-scope configuration parser): project root path, build script,
python constraint, host tag list (`packaging.tags.sys_tags()`), escaped
name/version, generator version, pre-rendered METADATA blob, presence of
`scripts` / `plugins` sections, converted entry points, include rules,
project-root file names (for the LICENSE/COPYING glob), and the native
build's observables (exit code, `build/lib.*` directories, files inside
the first one). -/
structure BuildConfig where
  path : String
  buildScript : Option String
  pythonConstraint : VerConstraint
  sysTags : List (String × String × String)
  escapedName : String
  escapedVersion : String
  poetryVersion : String
  metadataContent : String
  hasScripts : Bool
  hasPlugins : Bool
  entryPoints : List (String × List String)
  includes : List IncludeRule
  rootFiles : List String
  buildExitCode : Nat
  libDirs : List String
  libFiles : List String
  targetDir : String
deriving DecidableEq

/-- Python truthiness of `self._package.build_script` (`None` and the
empty string are falsy). -/
def scriptTruthy : Option String → Bool
  | none => false
  | some s => !(s == "")

/-- `WheelBuilder.dist_info_name` composed with the escaped name and
version: the `.dist-info` folder name. -/
def dist_info (cfg : BuildConfig) : String :=
  cfg.escapedName ++ ("-") ++ cfg.escapedVersion ++ (".dist-info")

/-- Modelled from the spec: `normalize_file_permissions` lives in
`masonry/utils/helpers.py`, which is not among the sources under
verification.  Per the spec it returns exactly one of two canonical
modes: executable `0o755` when any execute bit is set on the source mode,
else non-executable `0o644`. -/
def normalize_file_permissions (mode : Nat) : Nat :=
  if mode &&& 0o111 ≠ 0 then 0o755 else 0o644

/-- `stat.S_ISDIR`: the file-type bits denote a directory. -/
def S_ISDIR (mode : Nat) : Bool := mode &&& 0o170000 == 0o040000

/-- The hash field stored in a RECORD line:
`urlsafe_b64encode(sha256(bytes)).decode("ascii").rstrip("=")`. -/
def digestStr (env : FsEnv) (b : Bytes) : String :=
  String.mk (rstripEq (b64urlEncode (env.sha256 b)))

/-! ## Builder operations (wheel.py) -/

/-- The `external_attr` computed by `_add_file` (wheel.py:249): the
normalized mode in the high 16 bits, plus the MS-DOS directory flag when
the source mode denotes a directory. -/
def copiedAttr (env : FsEnv) (full_path : String) : Nat :=
  let new_mode := normalize_file_permissions (env.st_mode full_path)
  let attr0 := (new_mode &&& 0xFFFF) <<< 16
  if S_ISDIR (env.st_mode full_path) then attr0 ||| 0x10 else attr0

/-- The ZIP entry `_add_file` writes: the source bytes under the archive
path, with the default — fixed — `ZipInfo` timestamp `(1980, 1, 1, 0, 0, 0)`
(no `date_time` argument is passed, and the source file's mtime is never
consulted). -/
def copiedEntry (env : FsEnv) (full_path rel_path : String) : ZipEntry :=
  ⟨rel_path, env.fs full_path, (1980, 1, 1, 0, 0, 0), copiedAttr env full_path⟩

/-- The record `_add_file` appends: the digest of the bytes fed to the
hash in 8 KiB chunks, and the size from the fresh `os.stat` after
hashing. -/
def copiedRecord (env : FsEnv) (full_path rel_path : String) : RecordEntry :=
  ⟨rel_path,
    String.mk (rstripEq (b64urlEncode (env.sha256 ((toChunks8192 (env.fs full_path)).flatten)))),
    (env.fs full_path).length⟩

/-- `WheelBuilder._add_file` (wheel.py:240): write the source file into
the archive and append its manifest record.  (`os.sep = "/"` here, so the
separator replacement is the identity.) -/
def add_file (env : FsEnv) (st : BuilderState) (full_path rel_path : String) :
    BuilderState :=
  { entries := st.entries ++ [copiedEntry env full_path rel_path],
    records := st.records ++ [copiedRecord env full_path rel_path] }

/-- The ZIP entry `_write_to_zip` writes: the UTF-8 bytes of the rendered
text, the fixed timestamp `(2016, 1, 1, 0, 0, 0)` and the fixed
non-executable mode `0o644` in the high bits of `external_attr`. -/
def genEntry (rel_path content : String) : ZipEntry :=
  ⟨rel_path, strToBytes content, (2016, 1, 1, 0, 0, 0), (0o644 &&& 0xFFFF) <<< 16⟩

/-- The record `_write_to_zip` appends: stripped url-safe base64 SHA-256
of the UTF-8 bytes, and their length. -/
def genRecord (env : FsEnv) (rel_path content : String) : RecordEntry :=
  ⟨rel_path, digestStr env (strToBytes content), (strToBytes content).length⟩

/-- `WheelBuilder._write_to_zip` (wheel.py:273): write a generated text
file and append its manifest record. -/
def write_to_zip (env : FsEnv) (st : BuilderState) (rel_path : String)
    (content : String) : BuilderState :=
  { entries := st.entries ++ [genEntry rel_path content],
    records := st.records ++ [genRecord env rel_path content] }

/-- The archive-relative path of a matched file: relative to the
include's own base for a `PackageInclude` with a source root, else
relative to the project root (wheel.py:150). -/
def includeRel (cfg : BuildConfig) (inc : IncludeRule) (file : String) : String :=
  if inc.isPackage && inc.source then relativeTo inc.base file
  else relativeTo cfg.path file

/-- The body of `_copy_module`'s collection loop for one matched file:
skip `__pycache__` paths, directories, excluded package files, `.pyc`
files, and pairs already collected; otherwise append the pair. -/
def collectStep (env : FsEnv) (cfg : BuildConfig) (inc : IncludeRule)
    (acc : List (String × String)) (file : String) : List (String × String) :=
  if containsSub ("__pycache__") file then acc
  else if env.is_dir file then acc
  else
    let rel := includeRel cfg inc file
    if env.is_excluded rel && inc.isPackage then acc
    else if hasPycSuffix file then acc
    else if (file, rel) ∈ acc then acc
    else acc ++ [(file, rel)]

/-- The collection loop of `_copy_module` over one include rule. -/
def collectInclude (env : FsEnv) (cfg : BuildConfig) (inc : IncludeRule)
    (acc : List (String × String)) : List (String × String) :=
  inc.elements.foldl (fun acc file => collectStep env cfg inc acc file) acc

/-- The `to_add` list of `_copy_module` (wheel.py:135): fold over the
include rules, skipping rules scoped to other formats. -/
def to_add (env : FsEnv) (cfg : BuildConfig) : List (String × String) :=
  cfg.includes.foldl
    (fun acc inc =>
      if !inc.formats.isEmpty && !inc.formats.contains ("wheel") then acc
      else collectInclude env cfg inc acc)
    []

/-- `WheelBuilder._copy_module` (wheel.py:133): collect, sort by archive
path, and add each file. -/
def copy_module (env : FsEnv) (cfg : BuildConfig) (st : BuilderState) :
    BuilderState :=
  (sortByRel (to_add env cfg)).foldl (fun st p => add_file env st p.1 p.2) st

/-- Fatal build failures. -/
inductive BuildErr
  /-- `subprocess.check_call` raised `CalledProcessError` because the
  external build tool exited non-zero. -/
  | buildCommandFailed (exitCode : Nat)
  /-- `next(sys_tags())` raised `StopIteration`: no compatible tag. -/
  | noCompatibleTag
deriving DecidableEq

/-- The body of `_build`'s walk for one file of the `lib.*` tree: skip
directories and excluded files, skip paths already present in the
archive, otherwise add the file. -/
def nativeStep (env : FsEnv) (lib : String) (st : BuilderState) (pkg : String) :
    BuilderState :=
  if env.is_dir pkg || env.is_excluded pkg then st
  else
    let rel := relativeTo lib pkg
    if rel ∈ namelist st then st
    else add_file env st pkg rel

/-- `WheelBuilder._build` (wheel.py:93): when a build script is declared,
run the external build command (propagating a non-zero exit as a fatal
`CalledProcessError`), then merge the first `build/lib.*` directory into
the archive; a missing `lib.*` directory is a benign no-op. -/
def native_build (env : FsEnv) (cfg : BuildConfig) (st : BuilderState) :
    Except BuildErr BuilderState :=
  if scriptTruthy cfg.buildScript then
    if cfg.buildExitCode ≠ 0 then .error (.buildCommandFailed cfg.buildExitCode)
    else
      match cfg.libDirs with
      | [] => .ok st
      | lib :: _ => .ok (cfg.libFiles.foldl (fun st pkg => nativeStep env lib st pkg) st)
  else .ok st

/-- `WheelBuilder.tag` (wheel.py:224) before joining: the first
`sys_tags()` triple when a build script is declared (none when the
iterator is empty), else the pure tag. -/
def tagTriple (cfg : BuildConfig) : Option (String × String × String) :=
  if scriptTruthy cfg.buildScript then cfg.sysTags.head?
  else
    some (if supports_python2 cfg.pythonConstraint then ("py2.py3") else ("py3"),
      ("none"), ("any"))

/-- `WheelBuilder.tag`: the triple joined with `-`. -/
def tagStr (cfg : BuildConfig) : Option String :=
  (tagTriple cfg).map (fun t => t.1 ++ ("-") ++ t.2.1 ++ ("-") ++ t.2.2)

/-- `str.replace(" ", "")`: remove every space character. -/
def removeSpaces (s : String) : String :=
  String.mk (s.data.filter (fun c => !(c == ' ')))

/-- The sorted group names of the converted entry points
(`sorted(entry_points)` over the dict keys). -/
def epGroups (eps : List (String × List String)) : List String :=
  sortStrings (eps.map (fun p => p.1))

/-- Dict lookup `entry_points[group_name]`. -/
def epLookup (eps : List (String × List String)) (g : String) : List String :=
  match eps.find? (fun p => p.1 == g) with
  | some p => p.2
  | none => []

/-- The sorted entries of one group (`sorted(entry_points[group_name])`). -/
def epEntries (eps : List (String × List String)) (g : String) : List String :=
  sortStrings (epLookup eps g)

/-- One `[group]` section of entry_points.txt: header, one line per
entry with all spaces removed, and a blank separator line. -/
def renderGroup (eps : List (String × List String)) (g : String) : String :=
  ("[") ++ g ++ ("]\n") ++
    String.join ((epEntries eps g).map (fun ep => removeSpaces ep ++ ("\n"))) ++
    ("\n")

/-- `WheelBuilder._write_entry_points` (wheel.py:291): the full text of
entry_points.txt. -/
def entry_points_content (eps : List (String × List String)) : String :=
  String.join ((epGroups eps).map (fun g => renderGroup eps g))

/-- `wheel_file_template` filled in by `_write_wheel_file` (wheel.py:304);
`Root-Is-Purelib` is true exactly when `build_script is None`. -/
def wheel_file_content (cfg : BuildConfig) (tg : String) : String :=
  ("Wheel-Version: 1.0\nGenerator: poetry ") ++ cfg.poetryVersion ++
    ("\nRoot-Is-Purelib: ") ++ (if cfg.buildScript = none then ("true") else ("false")) ++
    ("\nTag: ") ++ tg ++ ("\n")

/-- The archive path of entry_points.txt. -/
def epPath (cfg : BuildConfig) : String := dist_info cfg ++ ("/entry_points.txt")

/-- `sorted(self._path.glob(base + "*"))`: the project-root file names
beginning with `base`, sorted. -/
def globSorted (cfg : BuildConfig) (base : String) : List String :=
  sortStrings (cfg.rootFiles.filter (fun n => base.data.isPrefixOf n.data))

/-- The license-like file names copied by `_write_metadata`, in the order
they are added: `COPYING*` sorted, then `LICENSE*` sorted. -/
def licenseNames (cfg : BuildConfig) : List String :=
  globSorted cfg ("COPYING") ++ globSorted cfg ("LICENSE")

/-- `WheelBuilder._write_metadata` (wheel.py:175): entry_points.txt when
`scripts` or `plugins` is declared, then the license files, then WHEEL
(whose text needs the tag: an empty `sys_tags()` iterator raises there),
then METADATA. -/
def write_metadata (env : FsEnv) (cfg : BuildConfig) (st : BuilderState) :
    Except BuildErr BuilderState :=
  let st1 :=
    if cfg.hasScripts || cfg.hasPlugins then
      write_to_zip env st (epPath cfg) (entry_points_content cfg.entryPoints)
    else st
  let st2 := (licenseNames cfg).foldl
    (fun st n => add_file env st (cfg.path ++ ("/") ++ n) (dist_info cfg ++ ("/") ++ n)) st1
  match tagStr cfg with
  | none => .error .noCompatibleTag
  | some tg =>
    .ok (write_to_zip env
      (write_to_zip env st2 (dist_info cfg ++ ("/WHEEL")) (wheel_file_content cfg tg))
      (dist_info cfg ++ ("/METADATA")) cfg.metadataContent)

/-- One line of RECORD: `path,sha256=hash,size`. -/
def record_line (r : RecordEntry) : String :=
  r.path ++ (",sha256=") ++ r.hash ++ (",") ++ toString r.size ++ ("\n")

/-- The text of the RECORD file rendered by `_write_record`
(wheel.py:193): one line per accumulated record, then the RECORD entry's
own line with empty hash and size. -/
def record_content (cfg : BuildConfig) (records : List RecordEntry) : String :=
  String.join (records.map record_line) ++ (dist_info cfg ++ ("/RECORD,,\n"))

/-- `WheelBuilder._write_record`: render the manifest from the records
accumulated so far and write it through `_write_to_zip` (which appends
one more — never rendered — record for RECORD itself). -/
def write_record (env : FsEnv) (cfg : BuildConfig) (st : BuilderState) :
    BuilderState :=
  write_to_zip env st (dist_info cfg ++ ("/RECORD")) (record_content cfg st.records)

/-- The archive state after `_copy_module`. -/
def stageCopied (env : FsEnv) (cfg : BuildConfig) : BuilderState :=
  copy_module env cfg emptyState

/-- The archive state after `_copy_module` and `_build`. -/
def stageNative (env : FsEnv) (cfg : BuildConfig) : Except BuildErr BuilderState :=
  native_build env cfg (stageCopied env cfg)

/-- The archive state after `_copy_module`, `_build` and
`_write_metadata`. -/
def stageMeta (env : FsEnv) (cfg : BuildConfig) : Except BuildErr BuilderState :=
  match stageNative env cfg with
  | .error e => .error e
  | .ok st => write_metadata env cfg st

/-- The body of `build` inside the `zipfile.ZipFile` block: the four
component steps in order, ending with `_write_record`. -/
def assemble (env : FsEnv) (cfg : BuildConfig) : Except BuildErr BuilderState :=
  match stageMeta env cfg with
  | .error e => .error e
  | .ok st => .ok (write_record env cfg st)

/-! ## Orchestration around the archive (wheel.py:65) -/

/-- What the orchestrating `build` method touches on disk: the temporary
files currently existing and the archive (if any) at the final wheel
path. -/
structure DiskState where
  tempFiles : List String
  destFile : Option (List ZipEntry)
deriving DecidableEq

/-- The directory `tempfile.mkstemp` allocates in — the system default
temporary directory (`mkstemp` is called with no `dir` argument, so the
destination directory plays no part in the choice). -/
def systemTempDir : String := "/tmp"

/-- The path returned by `tempfile.mkstemp(suffix=".whl")`. -/
def mkstempPath : String := systemTempDir ++ ("/") ++ ("tmpwheel.whl")

/-- `WheelBuilder.build` (wheel.py:65): create the temporary file in the
system temporary directory, assemble the archive into it, and on success
unlink any previous wheel at the destination and move the temporary file
there.  On failure the exception propagates out of the `with` block and
no cleanup of the temporary file happens. -/
def buildFull (env : FsEnv) (cfg : BuildConfig) (disk : DiskState) :
    DiskState × Except BuildErr BuilderState :=
  let disk1 : DiskState := { disk with tempFiles := disk.tempFiles ++ [mkstempPath] }
  match assemble env cfg with
  | .error e => (disk1, .error e)
  | .ok st =>
    ({ tempFiles := disk1.tempFiles.erase mkstempPath, destFile := some st.entries },
      .ok st)

/-! ## Verification-layer definitions -/

/-- The correspondence between an archive entry and its manifest record:
same path, hash of exactly the entry's bytes, size equal to the entry's
byte length. -/
def RecRel (env : FsEnv) (e : ZipEntry) (r : RecordEntry) : Prop :=
  r.path = e.path ∧ r.hash = digestStr env e.data ∧ r.size = e.data.length

/-- The central builder invariant: records correspond 1:1, in order, to
the entries written so far. -/
def StateOk (env : FsEnv) (st : BuilderState) : Prop :=
  List.Forall₂ (RecRel env) st.entries st.records

/-- A state predicate preserved by both primitive write operations. -/
def StepClosed (env : FsEnv) (P : BuilderState → Prop) : Prop :=
  (∀ st full rel, P st → P (add_file env st full rel)) ∧
  (∀ st rel content, P st → P (write_to_zip env st rel content))

/-- Every entry's timestamp is one of the two build-time constants. -/
def FixedTimes (st : BuilderState) : Prop :=
  ∀ e ∈ st.entries, e.dateTime = (2016, 1, 1, 0, 0, 0) ∨ e.dateTime = (1980, 1, 1, 0, 0, 0)

/-- Every entry's permission field is one of the two canonical modes. -/
def CanonicalPerms (st : BuilderState) : Prop :=
  ∀ e ∈ st.entries, e.externalAttr >>> 16 = 0o644 ∨ e.externalAttr >>> 16 = 0o755

/-! ## Concrete instances used by witnesses and counterexamples -/

/-- A small concrete environment: every file holds the two bytes
`[0, 255]` with mode `0o644`; nothing is a directory or excluded; the
digest primitive is instantiated with the constant empty digest. -/
def envA : FsEnv :=
  ⟨fun _ => [0, 255], fun _ => 0o644, fun _ => false, fun _ => false, fun _ => [], 7,
    fun _ => 3⟩

/-- A package include rooted at `srcA` matching one file. -/
def incA : IncludeRule := ⟨[], [("srcA/pkg/mod.py")], true, true, ("srcA")⟩

/-- A package include rooted at `srcB` matching a file with the same
archive-relative path as `incA`'s. -/
def incB : IncludeRule := ⟨[], [("srcB/pkg/mod.py")], true, true, ("srcB")⟩

/-- A small pure-python project configuration. -/
def cfgA : BuildConfig :=
  ⟨("proj"), none, [], [], ("demo"), ("0.1.0"), ("1.0.0"), ("MD"), false, false, [],
    [incA], [], 0, [], [], ("proj/dist")⟩

/-- `cfgA` with a duplicated include rule and a second source mapping to
the same archive path. -/
def cfgDup : BuildConfig := { cfgA with includes := [incA, incB, incA] }

/-- `cfgA` with a build script whose external build command exits with
status 1. -/
def cfgNative1 : BuildConfig :=
  { cfgA with
    buildScript := some ("build.py")
    buildExitCode := 1
    sysTags := [(("cp39"), ("cp39"), ("linux_x86_64"))] }

/-- `cfgA` with a build script, a successful build command, and no
`lib.*` output directory. -/
def cfgNative0 : BuildConfig :=
  { cfgA with
    buildScript := some ("build.py")
    buildExitCode := 0
    sysTags := [(("cp39"), ("cp39"), ("linux_x86_64"))] }

/-- `cfgA` with declared scripts and one entry-point group. -/
def cfgScripts : BuildConfig :=
  { cfgA with
    hasScripts := true
    entryPoints := [(("console_scripts"), [("foo = pkg:main")])] }

/-- `cfgA` with a python constraint whose range crosses into the 2.x
line. -/
def cfgPy2 : BuildConfig := { cfgA with pythonConstraint := [⟨⟨1, 2, 0⟩, ⟨2, 5, 0⟩⟩] }

/-- The state after metadata for the small pure build (extracted from
`stageMeta`). -/
def stMetaA : BuilderState :=
  match stageMeta envA cfgA with
  | .ok st => st
  | .error _ => emptyState

/-- The state `_write_metadata` produces from an empty archive for
`cfgScripts`. -/
def stMeta7 : BuilderState :=
  match write_metadata envA cfgScripts emptyState with
  | .ok st => st
  | .error _ => emptyState

/-- The final assembled state of the small pure build. -/
def stA : BuilderState :=
  match assemble envA cfgA with
  | .ok st => st
  | .error _ => emptyState

/-! ## Basic lemmas -/

theorem lexLeChars_total : ∀ a b, lexLeChars a b = true ∨ lexLeChars b a = true := by
  intro a
  induction a with
  | nil => intro b; left; rfl
  | cons x xs ih =>
    intro b
    cases b with
    | nil => right; rfl
    | cons y ys =>
      simp only [lexLeChars]
      rcases Nat.lt_trichotomy x.toNat y.toNat with h | h | h
      · left; simp [h]
      · have h1 : ¬ x.toNat < y.toNat := by omega
        have h2 : ¬ y.toNat < x.toNat := by omega
        simpa [h1, h2] using ih ys
      · right; simp [h]

theorem lexLeChars_trans :
    ∀ a b c, lexLeChars a b = true → lexLeChars b c = true → lexLeChars a c = true := by
  intro a
  induction a with
  | nil => intro b c _ _; rfl
  | cons x xs ih =>
    intro b c hab hbc
    cases b with
    | nil => simp [lexLeChars] at hab
    | cons y ys =>
      cases c with
      | nil => simp [lexLeChars] at hbc
      | cons z zs =>
        simp only [lexLeChars] at hab hbc ⊢
        rcases Nat.lt_trichotomy x.toNat y.toNat with hxy | hxy | hxy
        · rcases Nat.lt_trichotomy y.toNat z.toNat with hyz | hyz | hyz
          · simp [show x.toNat < z.toNat by omega]
          · simp [show x.toNat < z.toNat by omega]
          · rw [if_neg (by omega), if_pos (by omega)] at hbc
            exact absurd hbc (by simp)
        · rw [if_neg (by omega), if_neg (by omega)] at hab
          rcases Nat.lt_trichotomy y.toNat z.toNat with hyz | hyz | hyz
          · simp [show x.toNat < z.toNat by omega]
          · rw [if_neg (by omega), if_neg (by omega)] at hbc
            rw [if_neg (by omega), if_neg (by omega)]
            exact ih ys zs hab hbc
          · rw [if_neg (by omega), if_pos (by omega)] at hbc
            exact absurd hbc (by simp)
        · rw [if_neg (by omega), if_pos (by omega)] at hab
          exact absurd hab (by simp)

theorem strLe_total (a b : String) : strLe a b = true ∨ strLe b a = true :=
  lexLeChars_total a.data b.data

theorem strLe_trans {a b c : String} (h1 : strLe a b = true) (h2 : strLe b c = true) :
    strLe a c = true :=
  lexLeChars_trans a.data b.data c.data h1 h2

theorem sortStrings_sorted (l : List String) :
    List.Sorted (fun a b => strLe a b = true) (sortStrings l) := by
  have ht : IsTotal String (fun a b => strLe a b = true) := ⟨fun a b => strLe_total a b⟩
  have htr : IsTrans String (fun a b => strLe a b = true) :=
    ⟨fun _ _ _ h1 h2 => strLe_trans h1 h2⟩
  exact @List.sorted_insertionSort String _ _ ht htr l

theorem sortStrings_perm (l : List String) : List.Perm (sortStrings l) l :=
  List.perm_insertionSort _ l

theorem mem_sortStrings {l : List String} {x : String} : x ∈ sortStrings l ↔ x ∈ l :=
  (sortStrings_perm l).mem_iff

theorem lexLtChars_irrefl : ∀ a, lexLtChars a a = false := by
  intro a
  induction a with
  | nil => rfl
  | cons x xs ih =>
    simp only [lexLtChars]
    rw [if_neg (by omega), if_neg (by omega)]
    exact ih

theorem lexLtChars_trans :
    ∀ a b c, lexLtChars a b = true → lexLtChars b c = true → lexLtChars a c = true := by
  intro a
  induction a with
  | nil =>
    intro b c hab hbc
    cases b with
    | nil => simp [lexLtChars] at hab
    | cons y ys =>
      cases c with
      | nil => simp [lexLtChars] at hbc
      | cons z zs => rfl
  | cons x xs ih =>
    intro b c hab hbc
    cases b with
    | nil => simp [lexLtChars] at hab
    | cons y ys =>
      cases c with
      | nil => simp [lexLtChars] at hbc
      | cons z zs =>
        simp only [lexLtChars] at hab hbc ⊢
        rcases Nat.lt_trichotomy x.toNat y.toNat with hxy | hxy | hxy
        · rcases Nat.lt_trichotomy y.toNat z.toNat with hyz | hyz | hyz
          · simp [show x.toNat < z.toNat by omega]
          · simp [show x.toNat < z.toNat by omega]
          · rw [if_neg (by omega), if_pos (by omega)] at hbc
            exact absurd hbc (by simp)
        · rw [if_neg (by omega), if_neg (by omega)] at hab
          rcases Nat.lt_trichotomy y.toNat z.toNat with hyz | hyz | hyz
          · simp [show x.toNat < z.toNat by omega]
          · rw [if_neg (by omega), if_neg (by omega)] at hbc
            rw [if_neg (by omega), if_neg (by omega)]
            exact ih ys zs hab hbc
          · rw [if_neg (by omega), if_pos (by omega)] at hbc
            exact absurd hbc (by simp)
        · rw [if_neg (by omega), if_pos (by omega)] at hab
          exact absurd hab (by simp)

theorem lexLtChars_connex :
    ∀ a b, lexLtChars a b = false → lexLtChars b a = false → a = b := by
  intro a
  induction a with
  | nil =>
    intro b h1 _
    cases b with
    | nil => rfl
    | cons y ys => simp [lexLtChars] at h1
  | cons x xs ih =>
    intro b h1 h2
    cases b with
    | nil => simp [lexLtChars] at h2
    | cons y ys =>
      simp only [lexLtChars] at h1 h2
      rcases Nat.lt_trichotomy x.toNat y.toNat with hxy | hxy | hxy
      · rw [if_pos hxy] at h1
        simp at h1
      · have hx : x = y := Char.ext (UInt32.ext hxy)
        subst hx
        rw [if_neg (by omega), if_neg (by omega)] at h1 h2
        rw [ih ys h1 h2]
      · rw [if_pos hxy] at h2
        simp at h2

theorem strLt_irrefl (a : String) : strLt a a = false := lexLtChars_irrefl a.data

theorem strLt_trans {a b c : String} (h1 : strLt a b = true) (h2 : strLt b c = true) :
    strLt a c = true := lexLtChars_trans a.data b.data c.data h1 h2

theorem strLt_connex {a b : String} (h1 : strLt a b = false) (h2 : strLt b a = false) :
    a = b := by
  have h := lexLtChars_connex a.data b.data h1 h2
  calc a = String.mk a.data := rfl
    _ = String.mk b.data := congrArg String.mk h
    _ = b := rfl

theorem partsLe_total : ∀ x y : List String, partsLe x y = true ∨ partsLe y x = true := by
  intro x
  induction x with
  | nil => intro y; left; rfl
  | cons a as ih =>
    intro y
    cases y with
    | nil => right; rfl
    | cons b bs =>
      simp only [partsLe]
      cases hab : strLt a b with
      | true => left; simp
      | false =>
        cases hba : strLt b a with
        | true => right; simp
        | false =>
          have hEq : a = b := strLt_connex hab hba
          subst hEq
          rw [if_neg (by simp [hab]), if_neg (by simp [hab]),
            if_neg (by simp [hab]), if_neg (by simp [hab])]
          exact ih bs

theorem partsLe_trans :
    ∀ x y z : List String, partsLe x y = true → partsLe y z = true →
      partsLe x z = true := by
  intro x
  induction x with
  | nil => intro y z _ _; rfl
  | cons a as ih =>
    intro y z hxy hyz
    cases y with
    | nil => simp [partsLe] at hxy
    | cons b bs =>
      cases z with
      | nil => simp [partsLe] at hyz
      | cons c cs =>
        simp only [partsLe] at hxy hyz ⊢
        cases hab : strLt a b with
        | true =>
          cases hbc : strLt b c with
          | true => rw [if_pos (strLt_trans hab hbc)]
          | false =>
            cases hcb : strLt c b with
            | true =>
              rw [if_neg (by simp [hbc]), if_pos hcb] at hyz
              simp at hyz
            | false =>
              have hEq : b = c := strLt_connex hbc hcb
              subst hEq
              rw [if_pos hab]
        | false =>
          cases hba : strLt b a with
          | true =>
            rw [if_neg (by simp [hab]), if_pos hba] at hxy
            simp at hxy
          | false =>
            have hEq : a = b := strLt_connex hab hba
            subst hEq
            rw [if_neg (by simp [hab]), if_neg (by simp [hab])] at hxy
            cases hac : strLt a c with
            | true => simp
            | false =>
              cases hca : strLt c a with
              | true =>
                rw [if_neg (by simp [hac]), if_pos hca] at hyz
                simp at hyz
              | false =>
                have hEq2 : a = c := strLt_connex hac hca
                subst hEq2
                rw [if_neg (by simp [hac]), if_neg (by simp [hac])] at hyz
                rw [if_neg (by simp [hac]), if_neg (by simp [hac])]
                exact ih bs cs hxy hyz

theorem pathLe_total (a b : String) : pathLe a b = true ∨ pathLe b a = true :=
  partsLe_total (pathParts a) (pathParts b)

theorem pathLe_trans {a b c : String} (h1 : pathLe a b = true) (h2 : pathLe b c = true) :
    pathLe a c = true :=
  partsLe_trans (pathParts a) (pathParts b) (pathParts c) h1 h2

theorem sortByRel_sorted (l : List (String × String)) :
    List.Sorted (fun a b => pathLe a.2 b.2 = true) (sortByRel l) := by
  have ht : IsTotal (String × String) (fun a b => pathLe a.2 b.2 = true) :=
    ⟨fun a b => pathLe_total a.2 b.2⟩
  have htr : IsTrans (String × String) (fun a b => pathLe a.2 b.2 = true) :=
    ⟨fun _ _ _ h1 h2 => pathLe_trans h1 h2⟩
  exact @List.sorted_insertionSort (String × String) _ _ ht htr l

theorem pathLe_differs_from_joined_order :
    pathLe ("data/x") ("data-extra/x") = true ∧
      strLe ("data-extra/x") ("data/x") = true := by
  constructor
  · decide
  · decide

theorem sortByRel_perm (l : List (String × String)) : List.Perm (sortByRel l) l :=
  List.perm_insertionSort _ l

theorem rstripEq_append (l : List Char) :
    ∃ k, l = rstripEq l ++ List.replicate k '=' := by
  refine ⟨(l.reverse.takeWhile (fun c => c == '=')).length, ?_⟩
  unfold rstripEq
  have hrep : l.reverse.takeWhile (fun c => c == '=') =
      List.replicate (l.reverse.takeWhile (fun c => c == '=')).length '=' := by
    apply List.eq_replicate_of_mem
    intro b hb
    have := List.mem_takeWhile_imp hb
    simpa using this
  conv_lhs => rw [← List.reverse_reverse l,
    ← List.takeWhile_append_dropWhile (fun c => c == '=') l.reverse]
  rw [List.reverse_append, hrep]
  simp [List.reverse_replicate]

theorem rstripEq_getLast (l : List Char) : (rstripEq l).getLast? ≠ some '=' := by
  intro hlast
  unfold rstripEq at hlast
  rw [List.getLast?_reverse] at hlast
  have := List.head?_dropWhile_not (fun c => c == '=') l.reverse
  rw [hlast] at this
  simp at this

theorem toChunks8192_flatten (l : Bytes) : (toChunks8192 l).flatten = l := by
  induction l using toChunks8192.induct with
  | case1 => simp [toChunks8192]
  | case2 x xs ih =>
    rw [toChunks8192]
    simp only [List.flatten_cons, ih]
    have h : xs.drop 8191 = (x :: xs).drop 8192 := rfl
    rw [h, List.take_append_drop]

theorem mk_append (a b : String) : String.mk (a.data ++ b.data) = a ++ b := by
  have h := String.data_append a b
  calc String.mk (a.data ++ b.data) = String.mk ((a ++ b).data) := by rw [h]
    _ = a ++ b := rfl

theorem str_append_cancel {a b c : String} (h : a ++ b = a ++ c) : b = c := by
  have h2 : (a ++ b).data = (a ++ c).data := congrArg String.data h
  rw [String.data_append, String.data_append] at h2
  have h3 := List.append_cancel_left h2
  calc b = String.mk b.data := rfl
    _ = String.mk c.data := congrArg String.mk h3
    _ = c := rfl

theorem foldl_preserve {α β : Type} (P : β → Prop) (f : β → α → β)
    (hf : ∀ st x, P st → P (f st x)) :
    ∀ (l : List α) (st : β), P st → P (l.foldl f st) := by
  intro l
  induction l with
  | nil => intro st h; exact h
  | cons x xs ih => intro st h; exact ih (f st x) (hf st x h)

/-! ## Version-constraint lemmas -/

theorem verLeP_refl (a : SemVersion) : verLeP a a := Or.inr ⟨rfl, rfl, rfl⟩

theorem verLeP_total (a b : SemVersion) : verLeP a b ∨ verLeP b a := by
  obtain ⟨a1, a2, a3⟩ := a
  obtain ⟨b1, b2, b3⟩ := b
  simp only [verLeP, verLtP]
  omega

theorem verLeP_verLtP_trans {a b c : SemVersion} (h1 : verLeP a b) (h2 : verLtP b c) :
    verLtP a c := by
  obtain ⟨a1, a2, a3⟩ := a
  obtain ⟨b1, b2, b3⟩ := b
  obtain ⟨c1, c2, c3⟩ := c
  simp only [verLeP, verLtP] at h1 h2 ⊢
  omega

theorem verLeP_of_not (a b : SemVersion) (h : ¬ verLeP a b) : verLeP b a := by
  rcases verLeP_total a b with h1 | h1
  · exact absurd h1 h
  · exact h1

theorem vmax_le_left (a b : SemVersion) : verLeP a (vmax a b) := by
  unfold vmax
  split_ifs with h
  · exact h
  · exact verLeP_refl a

theorem vmax_le_right (a b : SemVersion) : verLeP b (vmax a b) := by
  unfold vmax
  split_ifs with h
  · exact verLeP_refl b
  · exact verLeP_of_not a b h

theorem vmax_le_of (a b c : SemVersion) (h1 : verLeP a c) (h2 : verLeP b c) :
    verLeP (vmax a b) c := by
  unfold vmax
  split_ifs with h
  · exact h2
  · exact h1

theorem rangesIntersect_iff (r1 r2 : VerRange) :
    rangesIntersect r1 r2 = true ↔ ∃ v, inRange r1 v ∧ inRange r2 v := by
  unfold rangesIntersect
  simp only [Bool.and_eq_true, decide_eq_true_eq]
  constructor
  · rintro ⟨h1, h2⟩
    exact ⟨vmax r1.lo r2.lo, ⟨vmax_le_left _ _, h1⟩, ⟨vmax_le_right _ _, h2⟩⟩
  · rintro ⟨v, ⟨hl1, hh1⟩, hl2, hh2⟩
    exact ⟨verLeP_verLtP_trans (vmax_le_of _ _ _ hl1 hl2) hh1,
      verLeP_verLtP_trans (vmax_le_of _ _ _ hl1 hl2) hh2⟩

theorem allows_any_iff (c1 c2 : VerConstraint) :
    allows_any c1 c2 = true ↔ ∃ v, allowsVer c1 v ∧ allowsVer c2 v := by
  unfold allows_any
  rw [List.any_eq_true]
  constructor
  · rintro ⟨r1, hr1, h⟩
    rw [List.any_eq_true] at h
    obtain ⟨r2, hr2, h⟩ := h
    obtain ⟨v, hv1, hv2⟩ := (rangesIntersect_iff r1 r2).mp h
    exact ⟨v, ⟨r1, hr1, hv1⟩, ⟨r2, hr2, hv2⟩⟩
  · rintro ⟨v, ⟨r1, hr1, hv1⟩, r2, hr2, hv2⟩
    refine ⟨r1, hr1, ?_⟩
    rw [List.any_eq_true]
    exact ⟨r2, hr2, (rangesIntersect_iff r1 r2).mpr ⟨v, hv1, hv2⟩⟩

theorem supports_python2_iff (c : VerConstraint) :
    supports_python2 c = true ↔
      ∃ v, allowsVer c v ∧ verLeP ⟨2, 0, 0⟩ v ∧ verLtP v ⟨3, 0, 0⟩ := by
  unfold supports_python2
  rw [allows_any_iff]
  constructor
  · rintro ⟨v, hv, hr⟩
    obtain ⟨r, hrm, hin⟩ := hr
    simp only [List.mem_singleton] at hrm
    subst hrm
    exact ⟨v, hv, hin.1, hin.2⟩
  · rintro ⟨v, hv, h1, h2⟩
    exact ⟨v, hv, legacyRange, List.mem_singleton_self _, h1, h2⟩

/-! ## Structural lemmas about the builder state -/

theorem add_file_entries (env : FsEnv) (st : BuilderState) (full rel : String) :
    (add_file env st full rel).entries = st.entries ++ [copiedEntry env full rel] := rfl

theorem write_to_zip_entries (env : FsEnv) (st : BuilderState) (rel content : String) :
    (write_to_zip env st rel content).entries = st.entries ++ [genEntry rel content] := rfl

theorem namelist_add_file (env : FsEnv) (st : BuilderState) (full rel : String) :
    namelist (add_file env st full rel) = namelist st ++ [rel] := by
  simp [namelist, add_file, copiedEntry]

theorem namelist_write_to_zip (env : FsEnv) (st : BuilderState) (rel content : String) :
    namelist (write_to_zip env st rel content) = namelist st ++ [rel] := by
  simp [namelist, write_to_zip, genEntry]

theorem foldl_add_file_entries (env : FsEnv) :
    ∀ (ps : List (String × String)) (st : BuilderState),
      (ps.foldl (fun st p => add_file env st p.1 p.2) st).entries =
        st.entries ++ ps.map (fun p => copiedEntry env p.1 p.2) := by
  intro ps
  induction ps with
  | nil => intro st; simp
  | cons p ps ih =>
    intro st
    simp only [List.foldl_cons, List.map_cons, ih, add_file_entries, List.append_assoc,
      List.singleton_append]

theorem copy_module_entries (env : FsEnv) (cfg : BuildConfig) (st : BuilderState) :
    (copy_module env cfg st).entries =
      st.entries ++ (sortByRel (to_add env cfg)).map (fun p => copiedEntry env p.1 p.2) := by
  unfold copy_module
  exact foldl_add_file_entries env _ st

/-! ## Preservation of step-closed predicates through the pipeline -/

theorem preserve_copy_module {env : FsEnv} {P : BuilderState → Prop}
    (h : StepClosed env P) (cfg : BuildConfig) (st : BuilderState) (hst : P st) :
    P (copy_module env cfg st) :=
  foldl_preserve P _ (fun st p hp => h.1 st p.1 p.2 hp) _ st hst

theorem preserve_nativeStep {env : FsEnv} {P : BuilderState → Prop}
    (h : StepClosed env P) (lib : String) (st : BuilderState) (pkg : String)
    (hst : P st) : P (nativeStep env lib st pkg) := by
  simp only [nativeStep]
  split_ifs with h1 h2
  · exact hst
  · exact hst
  · exact h.1 st pkg (relativeTo lib pkg) hst

theorem preserve_native_build {env : FsEnv} {P : BuilderState → Prop}
    (h : StepClosed env P) (cfg : BuildConfig) (st st' : BuilderState)
    (hok : native_build env cfg st = .ok st') (hst : P st) : P st' := by
  unfold native_build at hok
  by_cases hbs : scriptTruthy cfg.buildScript
  · rw [if_pos hbs] at hok
    by_cases hec : cfg.buildExitCode ≠ 0
    · rw [if_pos hec] at hok
      cases hok
    · rw [if_neg hec] at hok
      cases hld : cfg.libDirs with
      | nil =>
        rw [hld] at hok
        cases hok
        exact hst
      | cons lib rest =>
        rw [hld] at hok
        cases hok
        exact foldl_preserve P _ (fun st pkg hp => preserve_nativeStep h lib st pkg hp)
          _ st hst
  · rw [if_neg hbs] at hok
    cases hok
    exact hst

theorem preserve_write_metadata {env : FsEnv} {P : BuilderState → Prop}
    (h : StepClosed env P) (cfg : BuildConfig) (st st' : BuilderState)
    (hok : write_metadata env cfg st = .ok st') (hst : P st) : P st' := by
  unfold write_metadata at hok
  cases htag : tagStr cfg with
  | none => rw [htag] at hok; cases hok
  | some tg =>
    rw [htag] at hok
    cases hok
    apply h.2
    apply h.2
    apply foldl_preserve P _ (fun st n hp => h.1 st _ _ hp)
    split_ifs with hsc
    · exact h.2 _ _ _ hst
    · exact hst

theorem preserve_write_record {env : FsEnv} {P : BuilderState → Prop}
    (h : StepClosed env P) (cfg : BuildConfig) (st : BuilderState) (hst : P st) :
    P (write_record env cfg st) :=
  h.2 st _ _ hst

theorem preserve_stageMeta {env : FsEnv} {P : BuilderState → Prop}
    (h : StepClosed env P) (cfg : BuildConfig) (st : BuilderState)
    (hok : stageMeta env cfg = .ok st) (hempty : P emptyState) : P st := by
  unfold stageMeta at hok
  cases hsn : stageNative env cfg with
  | error e => rw [hsn] at hok; cases hok
  | ok stn =>
    rw [hsn] at hok
    unfold stageNative at hsn
    have hcp : P (stageCopied env cfg) :=
      preserve_copy_module h cfg emptyState hempty
    have hn : P stn := preserve_native_build h cfg _ stn hsn hcp
    exact preserve_write_metadata h cfg stn st hok hn

theorem preserve_assemble {env : FsEnv} {P : BuilderState → Prop}
    (h : StepClosed env P) (cfg : BuildConfig) (st : BuilderState)
    (hok : assemble env cfg = .ok st) (hempty : P emptyState) : P st := by
  unfold assemble at hok
  cases hsm : stageMeta env cfg with
  | error e => rw [hsm] at hok; cases hok
  | ok stm =>
    rw [hsm] at hok
    cases hok
    exact preserve_write_record h cfg stm (preserve_stageMeta h cfg stm hsm hempty)

/-! ## The record/entry correspondence invariant -/

theorem recRel_copied (env : FsEnv) (full rel : String) :
    RecRel env (copiedEntry env full rel) (copiedRecord env full rel) := by
  refine ⟨rfl, ?_, rfl⟩
  simp only [copiedRecord, copiedEntry, digestStr, toChunks8192_flatten]

theorem recRel_gen (env : FsEnv) (rel content : String) :
    RecRel env (genEntry rel content) (genRecord env rel content) :=
  ⟨rfl, rfl, rfl⟩

theorem stateOk_closed (env : FsEnv) : StepClosed env (StateOk env) := by
  constructor
  · intro st full rel hst
    exact List.rel_append hst
      (List.Forall₂.cons (recRel_copied env full rel) List.Forall₂.nil)
  · intro st rel content hst
    exact List.rel_append hst
      (List.Forall₂.cons (recRel_gen env rel content) List.Forall₂.nil)

theorem stateOk_empty (env : FsEnv) : StateOk env emptyState := List.Forall₂.nil

theorem forall₂_paths {env : FsEnv} :
    ∀ {es : List ZipEntry} {rs : List RecordEntry}, List.Forall₂ (RecRel env) es rs →
      rs.map (fun r => r.path) = es.map (fun e => e.path) := by
  intro es rs h
  induction h with
  | nil => rfl
  | cons h1 _ ih => simp [ih, h1.1]

theorem forall₂_mem_right {env : FsEnv} :
    ∀ {es : List ZipEntry} {rs : List RecordEntry}, List.Forall₂ (RecRel env) es rs →
      ∀ r ∈ rs, ∃ e ∈ es, RecRel env e r := by
  intro es rs h
  induction h with
  | nil => intro r hr; cases hr
  | cons h1 _ ih =>
    intro r hr
    rcases List.mem_cons.mp hr with rfl | hr
    · exact ⟨_, List.mem_cons_self _ _, h1⟩
    · obtain ⟨e, he, hrel⟩ := ih r hr
      exact ⟨e, List.mem_cons_of_mem _ he, hrel⟩

theorem stateOk_stageMeta {env : FsEnv} {cfg : BuildConfig} {st : BuilderState}
    (hok : stageMeta env cfg = .ok st) : StateOk env st :=
  preserve_stageMeta (stateOk_closed env) cfg st hok (stateOk_empty env)

/-! ## Fixed timestamps and canonical permissions -/

theorem fixedTimes_closed (env : FsEnv) : StepClosed env FixedTimes := by
  constructor
  · intro st full rel hst e he
    rw [add_file_entries] at he
    rcases List.mem_append.mp he with he | he
    · exact hst e he
    · simp only [List.mem_singleton] at he
      subst he
      right; rfl
  · intro st rel content hst e he
    rw [write_to_zip_entries] at he
    rcases List.mem_append.mp he with he | he
    · exact hst e he
    · simp only [List.mem_singleton] at he
      subst he
      left; rfl

theorem fixedTimes_empty : FixedTimes emptyState := by
  intro e he; cases he

theorem copiedAttr_shift (env : FsEnv) (full : String) :
    copiedAttr env full >>> 16 = normalize_file_permissions (env.st_mode full) := by
  simp only [copiedAttr, normalize_file_permissions]
  split_ifs with h1 h2 h2 <;> decide

theorem canonicalPerms_closed (env : FsEnv) : StepClosed env CanonicalPerms := by
  constructor
  · intro st full rel hst e he
    rw [add_file_entries] at he
    rcases List.mem_append.mp he with he | he
    · exact hst e he
    · simp only [List.mem_singleton] at he
      subst he
      show copiedAttr env full >>> 16 = 0o644 ∨ copiedAttr env full >>> 16 = 0o755
      rw [copiedAttr_shift]
      unfold normalize_file_permissions
      split_ifs
      · right; rfl
      · left; rfl
  · intro st rel content hst e he
    rw [write_to_zip_entries] at he
    rcases List.mem_append.mp he with he | he
    · exact hst e he
    · simp only [List.mem_singleton] at he
      subst he
      left
      show ((0o644 &&& 0xFFFF) <<< 16) >>> 16 = 0o644
      decide

theorem canonicalPerms_empty : CanonicalPerms emptyState := by
  intro e he; cases he

/-! ## Namelist decomposition of `_write_metadata` -/

theorem namelist_license_fold (env : FsEnv) (cfg : BuildConfig) :
    ∀ (ns : List String) (st : BuilderState),
      namelist (ns.foldl
        (fun st n => add_file env st (cfg.path ++ ("/") ++ n) (dist_info cfg ++ ("/") ++ n))
        st) =
      namelist st ++ ns.map (fun n => dist_info cfg ++ ("/") ++ n) := by
  intro ns
  induction ns with
  | nil => intro st; simp
  | cons n ns ih =>
    intro st
    simp only [List.foldl_cons, List.map_cons, ih, namelist_add_file, List.append_assoc,
      List.singleton_append]

theorem write_metadata_namelist {env : FsEnv} {cfg : BuildConfig}
    {st st' : BuilderState} (hok : write_metadata env cfg st = .ok st') :
    namelist st' =
      (namelist st ++ (if cfg.hasScripts || cfg.hasPlugins then [epPath cfg] else [])) ++
      (licenseNames cfg).map (fun n => dist_info cfg ++ ("/") ++ n) ++
      [dist_info cfg ++ ("/WHEEL"), dist_info cfg ++ ("/METADATA")] := by
  unfold write_metadata at hok
  cases htag : tagStr cfg with
  | none => rw [htag] at hok; cases hok
  | some tg =>
    rw [htag] at hok
    cases hok
    rw [namelist_write_to_zip, namelist_write_to_zip, namelist_license_fold]
    split_ifs with hsc
    · rw [namelist_write_to_zip]
      simp [List.append_assoc]
    · simp [List.append_assoc]

/-! ## Collection-loop dedup lemmas -/

theorem collectStep_cases (env : FsEnv) (cfg : BuildConfig) (inc : IncludeRule)
    (acc : List (String × String)) (file : String) :
    collectStep env cfg inc acc file = acc ∨
      (collectStep env cfg inc acc file = acc ++ [(file, includeRel cfg inc file)] ∧
        (file, includeRel cfg inc file) ∉ acc) := by
  simp only [collectStep]
  split_ifs with h1 h2 h3 h4 h5
  · left; rfl
  · left; rfl
  · left; rfl
  · left; rfl
  · left; rfl
  · right; exact ⟨rfl, h5⟩

theorem collectStep_mem (env : FsEnv) (cfg : BuildConfig) (inc : IncludeRule)
    (acc : List (String × String)) (file : String)
    (h : (file, includeRel cfg inc file) ∈ acc) :
    collectStep env cfg inc acc file = acc := by
  rcases collectStep_cases env cfg inc acc file with h1 | ⟨_, h2⟩
  · exact h1
  · exact absurd h h2

theorem collectStep_nodup (env : FsEnv) (cfg : BuildConfig) (inc : IncludeRule)
    (acc : List (String × String)) (file : String) (h : acc.Nodup) :
    (collectStep env cfg inc acc file).Nodup := by
  rcases collectStep_cases env cfg inc acc file with h1 | ⟨h1, h2⟩
  · rw [h1]; exact h
  · rw [h1]
    rw [List.nodup_append]
    refine ⟨h, List.nodup_singleton _, ?_⟩
    intro a ha hmem
    simp only [List.mem_singleton] at hmem
    subst hmem
    exact h2 ha

theorem collectInclude_nodup (env : FsEnv) (cfg : BuildConfig) (inc : IncludeRule)
    (acc : List (String × String)) (h : acc.Nodup) :
    (collectInclude env cfg inc acc).Nodup :=
  foldl_preserve (fun l => l.Nodup) _
    (fun acc file hp => collectStep_nodup env cfg inc acc file hp) _ acc h

theorem to_add_nodup (env : FsEnv) (cfg : BuildConfig) : (to_add env cfg).Nodup := by
  unfold to_add
  refine foldl_preserve (fun l => l.Nodup)
    (fun acc inc =>
      if !inc.formats.isEmpty && !inc.formats.contains ("wheel") then acc
      else collectInclude env cfg inc acc)
    ?_ cfg.includes [] List.nodup_nil
  intro acc inc hp
  dsimp only
  split_ifs with h1
  · exact hp
  · exact collectInclude_nodup env cfg inc acc hp

/-! ## Archive-path disequalities for the metadata step -/

theorem dist_slash_inj {cfg : BuildConfig} {n m : String}
    (h : dist_info cfg ++ ("/") ++ n = dist_info cfg ++ ("/") ++ m) : n = m :=
  str_append_cancel h

theorem epPath_eq_slash (cfg : BuildConfig) :
    epPath cfg = dist_info cfg ++ ("/") ++ ("entry_points.txt") := by
  unfold epPath
  rw [String.append_assoc]
  have h : ("/" : String) ++ ("entry_points.txt") = ("/entry_points.txt") := by decide
  rw [h]

theorem mem_licenseNames {cfg : BuildConfig} {n : String} (h : n ∈ licenseNames cfg) :
    (("COPYING").data.isPrefixOf n.data = true) ∨
      (("LICENSE").data.isPrefixOf n.data = true) := by
  unfold licenseNames globSorted at h
  rcases List.mem_append.mp h with h | h <;>
    rw [mem_sortStrings] at h <;> have := List.mem_filter.mp h
  · exact Or.inl this.2
  · exact Or.inr this.2

theorem license_ne_ep {cfg : BuildConfig} {n : String} (hn : n ∈ licenseNames cfg) :
    dist_info cfg ++ ("/") ++ n ≠ epPath cfg := by
  intro h
  rw [epPath_eq_slash] at h
  have heq : n = ("entry_points.txt") := dist_slash_inj h
  rcases mem_licenseNames hn with hpre | hpre <;> rw [heq] at hpre <;>
    exact absurd hpre (by decide)

theorem wheel_ne_ep (cfg : BuildConfig) : dist_info cfg ++ ("/WHEEL") ≠ epPath cfg := by
  intro h
  unfold epPath at h
  have := str_append_cancel h
  exact absurd this (by decide)

theorem metadata_ne_ep (cfg : BuildConfig) :
    dist_info cfg ++ ("/METADATA") ≠ epPath cfg := by
  intro h
  unfold epPath at h
  have := str_append_cancel h
  exact absurd this (by decide)

/-! ## Claim theorems -/

/-- C2: tag resolution is a pure function of its inputs.  With no native
build the tag is `py2.py3-none-any` exactly when the declared interpreter
range allows some version in `[2.0.0, 3.0.0)`, and `py3-none-any`
otherwise; with a native build the tag is the host's first compatible
(interpreter, abi, platform) triple joined with `-`. -/
theorem C2_tag_resolution :
    (∀ cfg : BuildConfig, scriptTruthy cfg.buildScript = false →
      (∃ v, allowsVer cfg.pythonConstraint v ∧ verLeP ⟨2, 0, 0⟩ v ∧ verLtP v ⟨3, 0, 0⟩) →
      tagStr cfg = some ("py2.py3-none-any")) ∧
    (∀ cfg : BuildConfig, scriptTruthy cfg.buildScript = false →
      (¬ ∃ v, allowsVer cfg.pythonConstraint v ∧ verLeP ⟨2, 0, 0⟩ v ∧ verLtP v ⟨3, 0, 0⟩) →
      tagStr cfg = some ("py3-none-any")) ∧
    (∀ (cfg : BuildConfig) (t : String × String × String)
      (rest : List (String × String × String)),
      scriptTruthy cfg.buildScript = true → cfg.sysTags = t :: rest →
      tagStr cfg = some (t.1 ++ ("-") ++ t.2.1 ++ ("-") ++ t.2.2)) := by
  refine ⟨?_, ?_, ?_⟩
  · intro cfg h1 h2
    have hs : supports_python2 cfg.pythonConstraint = true :=
      (supports_python2_iff _).mpr h2
    simp only [tagStr, tagTriple, h1, Bool.false_eq_true, if_false, hs, if_true,
      Option.map_some]
    rfl
  · intro cfg h1 h2
    have hs : supports_python2 cfg.pythonConstraint = false := by
      cases h : supports_python2 cfg.pythonConstraint
      · rfl
      · exact absurd ((supports_python2_iff _).mp h) h2
    simp only [tagStr, tagTriple, h1, Bool.false_eq_true, if_false, hs, if_true,
      Option.map_some]
    rfl
  · intro cfg t rest h1 h2
    simp only [tagStr, tagTriple, h1, if_true, h2, List.head?_cons]
    rfl

/-- C2 witness: a constraint crossing the 2.x line resolves to
`py2.py3-none-any`, the empty constraint to `py3-none-any`, and a native
build to the head of the host tag list. -/
theorem C2_tag_resolution_witness :
    (scriptTruthy cfgPy2.buildScript = false ∧
      (∃ v, allowsVer cfgPy2.pythonConstraint v ∧ verLeP ⟨2, 0, 0⟩ v ∧ verLtP v ⟨3, 0, 0⟩) ∧
      tagStr cfgPy2 = some ("py2.py3-none-any")) ∧
    (scriptTruthy cfgA.buildScript = false ∧
      (¬ ∃ v, allowsVer cfgA.pythonConstraint v ∧ verLeP ⟨2, 0, 0⟩ v ∧ verLtP v ⟨3, 0, 0⟩) ∧
      tagStr cfgA = some ("py3-none-any")) ∧
    (scriptTruthy cfgNative0.buildScript = true ∧
      cfgNative0.sysTags = ((("cp39"), ("cp39"), ("linux_x86_64"))) :: [] ∧
      tagStr cfgNative0 =
        some ((("cp39") : String) ++ ("-") ++ ("cp39") ++ ("-") ++ ("linux_x86_64"))) := by
  have hempty : ¬ ∃ v, allowsVer cfgA.pythonConstraint v ∧
      verLeP ⟨2, 0, 0⟩ v ∧ verLtP v ⟨3, 0, 0⟩ := by
    rintro ⟨v, ⟨r, hr, _⟩, _⟩
    cases hr
  refine ⟨⟨by decide, ⟨⟨2, 0, 0⟩, by decide⟩, ?_⟩, ⟨by decide, hempty, ?_⟩, ⟨by decide, rfl, ?_⟩⟩
  · exact C2_tag_resolution.1 cfgPy2 (by decide) ⟨⟨2, 0, 0⟩, by decide⟩
  · exact C2_tag_resolution.2.1 cfgA (by decide) hempty
  · exact C2_tag_resolution.2.2 cfgNative0 _ _ (by decide) rfl

/-- C4: during collection, a pair identical to one already collected is
dropped silently (the output never holds a pair twice and a repeated pair
leaves the accumulator unchanged), while the same archive path from a
different source is kept twice, as on the concrete duplicated
configuration. -/
theorem C4_dedup_pairs :
    (∀ (env : FsEnv) (cfg : BuildConfig), (to_add env cfg).Nodup) ∧
    (∀ (env : FsEnv) (cfg : BuildConfig) (inc : IncludeRule)
      (acc : List (String × String)) (file : String),
      (file, includeRel cfg inc file) ∈ acc → collectStep env cfg inc acc file = acc) ∧
    (to_add envA cfgDup =
      [(("srcA/pkg/mod.py"), ("pkg/mod.py")), (("srcB/pkg/mod.py"), ("pkg/mod.py"))] ∧
      (("srcA/pkg/mod.py") : String) ≠ ("srcB/pkg/mod.py")) :=
  ⟨to_add_nodup, collectStep_mem, by decide, by decide⟩

/-- C4 witness: a repeated identical pair leaves the accumulator
unchanged. -/
theorem C4_dedup_pairs_witness :
    ((("srcA/pkg/mod.py") : String), (("pkg/mod.py") : String)) ∈
        [((("srcA/pkg/mod.py") : String), (("pkg/mod.py") : String))] ∧
      collectStep envA cfgDup incA
        [(("srcA/pkg/mod.py"), ("pkg/mod.py"))] ("srcA/pkg/mod.py") =
        [(("srcA/pkg/mod.py"), ("pkg/mod.py"))] := by
  constructor
  · decide
  · exact C4_dedup_pairs.2.1 envA cfgDup incA _ _ (by decide)

/-- C5: builds are reproducible.  The assembled archive is independent of
the wall clock and the source mtimes; every generated entry carries the
fixed timestamp `(2016, 1, 1, 0, 0, 0)` and the fixed mode `0o644`; every
entry of a finished archive carries one of the two build constants as its
timestamp, never the current time. -/
theorem C5_reproducible :
    (∀ (fs : String → Bytes) (mo : String → Nat) (di ex : String → Bool)
      (ha : Bytes → Bytes) (c₁ c₂ : Nat) (m₁ m₂ : String → Nat) (cfg : BuildConfig),
      assemble ⟨fs, mo, di, ex, ha, c₁, m₁⟩ cfg = assemble ⟨fs, mo, di, ex, ha, c₂, m₂⟩ cfg) ∧
    (∀ (env : FsEnv) (st : BuilderState) (rel content : String),
      (write_to_zip env st rel content).entries =
        st.entries ++
          [⟨rel, strToBytes content, (2016, 1, 1, 0, 0, 0), (0o644 &&& 0xFFFF) <<< 16⟩]) ∧
    (∀ (env : FsEnv) (cfg : BuildConfig) (st : BuilderState),
      assemble env cfg = .ok st → FixedTimes st) := by
  refine ⟨?_, ?_, ?_⟩
  · intro fs mo di ex ha c₁ c₂ m₁ m₂ cfg
    rfl
  · intro env st rel content
    rfl
  · intro env cfg st hok
    exact preserve_assemble (fixedTimes_closed env) cfg st hok fixedTimes_empty

/-- C5 witness: the small pure build assembles successfully and all its
entry timestamps are the two build constants. -/
theorem C5_reproducible_witness :
    assemble envA cfgA = .ok stA ∧ FixedTimes stA :=
  ⟨rfl, C5_reproducible.2.2 envA cfgA stA rfl⟩

/-- C6: with a native build declared, a non-zero exit of the build tool
is a fatal `BuildCommandFailed`; a successful build with no `lib.*`
output directory leaves the archive untouched; a walked file whose
archive path is already present is skipped. -/
theorem C6_native_failures :
    (∀ (env : FsEnv) (cfg : BuildConfig) (st : BuilderState),
      scriptTruthy cfg.buildScript = true → cfg.buildExitCode ≠ 0 →
      native_build env cfg st = .error (.buildCommandFailed cfg.buildExitCode)) ∧
    (∀ (env : FsEnv) (cfg : BuildConfig) (st : BuilderState),
      scriptTruthy cfg.buildScript = true → cfg.buildExitCode = 0 → cfg.libDirs = [] →
      native_build env cfg st = .ok st) ∧
    (∀ (env : FsEnv) (lib : String) (st : BuilderState) (pkg : String),
      env.is_dir pkg = false → env.is_excluded pkg = false →
      relativeTo lib pkg ∈ namelist st → nativeStep env lib st pkg = st) := by
  refine ⟨?_, ?_, ?_⟩
  · intro env cfg st h1 h2
    simp [native_build, h1, h2]
  · intro env cfg st h1 h2 h3
    simp [native_build, h1, h2, h3]
  · intro env lib st pkg h1 h2 h3
    simp [nativeStep, h1, h2, h3]

/-- C6 witness: the three native-build behaviors at concrete inputs. -/
theorem C6_native_failures_witness :
    (scriptTruthy cfgNative1.buildScript = true ∧ cfgNative1.buildExitCode ≠ 0 ∧
      native_build envA cfgNative1 emptyState =
        .error (.buildCommandFailed cfgNative1.buildExitCode)) ∧
    (scriptTruthy cfgNative0.buildScript = true ∧ cfgNative0.buildExitCode = 0 ∧
      cfgNative0.libDirs = [] ∧ native_build envA cfgNative0 emptyState = .ok emptyState) ∧
    (envA.is_dir ("lib/x.so") = false ∧ envA.is_excluded ("lib/x.so") = false ∧
      relativeTo ("lib") ("lib/x.so") ∈
        namelist (add_file envA emptyState ("lib/x.so") ("x.so")) ∧
      nativeStep envA ("lib") (add_file envA emptyState ("lib/x.so") ("x.so")) ("lib/x.so") =
        add_file envA emptyState ("lib/x.so") ("x.so")) := by
  refine ⟨⟨by decide, by decide, ?_⟩, ⟨by decide, by decide, by decide, ?_⟩,
    ⟨by decide, by decide, by decide, ?_⟩⟩
  · exact C6_native_failures.1 envA cfgNative1 emptyState (by decide) (by decide)
  · exact C6_native_failures.2.1 envA cfgNative0 emptyState (by decide) (by decide) (by decide)
  · exact C6_native_failures.2.2 envA ("lib") _ ("lib/x.so") (by decide) (by decide) (by decide)

/-- C8 counterexample: the claim "on any fatal failure the temporary
output file is removed" is false on the code — a build whose native build
command exits 1 fails fatally, yet the temporary file created at the
start (the temp list began empty) is still present afterwards. -/
theorem C8_counterexample :
    (buildFull envA cfgNative1 ⟨[], some []⟩).2 = .error (.buildCommandFailed 1) ∧
    (buildFull envA cfgNative1 ⟨[], some []⟩).1.tempFiles ≠ [] := by
  constructor
  · rfl
  · decide

/-- C8 (amended): on a fatal failure the previous archive at the final
destination is untouched and the error propagates, but the temporary file
— created by `mkstemp` in the system temporary directory, not the
destination directory — is not removed; on success the destination is
replaced by the assembled archive. -/
theorem C8_amended_cleanup (env : FsEnv) (cfg : BuildConfig) (disk : DiskState) :
    (∀ e, assemble env cfg = .error e →
      (buildFull env cfg disk).1.destFile = disk.destFile ∧
      mkstempPath ∈ (buildFull env cfg disk).1.tempFiles ∧
      (buildFull env cfg disk).2 = .error e) ∧
    (∀ st, assemble env cfg = .ok st →
      (buildFull env cfg disk).1.destFile = some st.entries ∧
      (buildFull env cfg disk).2 = .ok st) := by
  constructor
  · intro e he
    simp [buildFull, he]
  · intro st hs
    simp [buildFull, hs]

/-- C8 witness: the amended behavior at a failing and at a succeeding
concrete build. -/
theorem C8_amended_cleanup_witness :
    (assemble envA cfgNative1 = .error (.buildCommandFailed 1) ∧
      (buildFull envA cfgNative1 ⟨[], some []⟩).1.destFile = some [] ∧
      mkstempPath ∈ (buildFull envA cfgNative1 ⟨[], some []⟩).1.tempFiles) ∧
    (assemble envA cfgA = .ok stA ∧
      (buildFull envA cfgA ⟨[], some []⟩).1.destFile = some stA.entries) := by
  refine ⟨⟨rfl, ?_, ?_⟩, rfl, ?_⟩
  · exact ((C8_amended_cleanup envA cfgNative1 ⟨[], some []⟩).1 _ rfl).1
  · exact ((C8_amended_cleanup envA cfgNative1 ⟨[], some []⟩).1 _ rfl).2.1
  · exact ((C8_amended_cleanup envA cfgA ⟨[], some []⟩).2 stA rfl).1

/-- C9: every copied entry's permission field is the normalized mode —
`0o755` exactly when an execute bit is set on the source, else `0o644`;
every generated entry is fixed at `0o644`; in a finished archive every
entry carries one of the two canonical modes. -/
theorem C9_perm_normalization :
    (∀ (env : FsEnv) (full rel : String),
      (copiedEntry env full rel).externalAttr >>> 16 =
        (if env.st_mode full &&& 0o111 ≠ 0 then 0o755 else 0o644)) ∧
    (∀ rel content : String, (genEntry rel content).externalAttr >>> 16 = 0o644) ∧
    (∀ (env : FsEnv) (cfg : BuildConfig) (st : BuilderState),
      assemble env cfg = .ok st → CanonicalPerms st) := by
  refine ⟨?_, ?_, ?_⟩
  · intro env full rel
    have h : (copiedEntry env full rel).externalAttr = copiedAttr env full := rfl
    rw [h, copiedAttr_shift]
    rfl
  · intro rel content
    show ((0o644 &&& 0xFFFF) <<< 16) >>> 16 = 0o644
    decide
  · intro env cfg st hok
    exact preserve_assemble (canonicalPerms_closed env) cfg st hok canonicalPerms_empty

/-- C9 witness: the small pure build assembles successfully and all its
entry permissions are canonical. -/
theorem C9_perm_normalization_witness :
    assemble envA cfgA = .ok stA ∧ CanonicalPerms stA :=
  ⟨rfl, C9_perm_normalization.2.2 envA cfgA stA rfl⟩

/-- C10: a copied file's record stores the stripped url-safe base64
SHA-256 of the source bytes together with the length of those same bytes
(the fresh stat of the unchanged file); the stripping removes exactly the
trailing `=` padding; a generated file's record likewise pairs the digest
of its UTF-8 bytes with their length. -/
theorem C10_record_hash (env : FsEnv) (st : BuilderState) (full rel : String) :
    (add_file env st full rel).records =
      st.records ++ [⟨rel, digestStr env (env.fs full), (env.fs full).length⟩] ∧
    (∃ k, b64urlEncode (env.sha256 (env.fs full)) =
        rstripEq (b64urlEncode (env.sha256 (env.fs full))) ++ List.replicate k '=' ∧
      (rstripEq (b64urlEncode (env.sha256 (env.fs full)))).getLast? ≠ some '=') ∧
    (∀ content, (write_to_zip env st rel content).records =
      st.records ++
        [⟨rel, digestStr env (strToBytes content), (strToBytes content).length⟩]) := by
  refine ⟨?_, ?_, ?_⟩
  · simp only [add_file, copiedRecord, digestStr, toChunks8192_flatten]
  · obtain ⟨k, hk⟩ := rstripEq_append (b64urlEncode (env.sha256 (env.fs full)))
    exact ⟨k, hk, rstripEq_getLast _⟩
  · intro content
    rfl

/-- C1: in a finished archive whose entry paths do not collide, every
entry written before RECORD has exactly one manifest record with its
path, and that record holds the digest of exactly the entry's bytes and
the entry's byte length; the rendered manifest ends with the RECORD
line with empty hash and size; RECORD itself is absent from the rendered
record list. -/
theorem C1_manifest_complete (env : FsEnv) (cfg : BuildConfig) (stMeta : BuilderState)
    (hMeta : stageMeta env cfg = .ok stMeta)
    (hNodup : (namelist (write_record env cfg stMeta)).Nodup) :
    (∀ e ∈ stMeta.entries,
      (stMeta.records.filter (fun r => r.path == e.path)).length = 1 ∧
      ∀ r ∈ stMeta.records, r.path = e.path →
        r.hash = digestStr env e.data ∧ r.size = e.data.length) ∧
    (write_record env cfg stMeta).entries =
      stMeta.entries ++
        [genEntry (dist_info cfg ++ ("/RECORD")) (record_content cfg stMeta.records)] ∧
    record_content cfg stMeta.records =
      String.join (stMeta.records.map record_line) ++ (dist_info cfg ++ ("/RECORD,,\n")) ∧
    (dist_info cfg ++ ("/RECORD")) ∉ stMeta.records.map (fun r => r.path) ∧
    assemble env cfg = .ok (write_record env cfg stMeta) := by
  have hok : StateOk env stMeta := stateOk_stageMeta hMeta
  have hpaths : stMeta.records.map (fun r => r.path) = namelist stMeta := forall₂_paths hok
  have hnl : namelist (write_record env cfg stMeta) =
      namelist stMeta ++ [dist_info cfg ++ ("/RECORD")] := by
    unfold write_record
    rw [namelist_write_to_zip]
  rw [hnl, List.nodup_append] at hNodup
  obtain ⟨hnd, _, hdisj⟩ := hNodup
  refine ⟨?_, rfl, rfl, ?_, ?_⟩
  · intro e he
    constructor
    · rw [← List.countP_eq_length_filter]
      have hcp : stMeta.records.countP (fun r => r.path == e.path) =
          (stMeta.records.map (fun r => r.path)).countP (fun s => s == e.path) := by
        rw [List.countP_map]
        rfl
      rw [hcp, hpaths]
      have hcount : (namelist stMeta).countP (fun s => s == e.path) =
          (namelist stMeta).count e.path := rfl
      rw [hcount]
      exact List.count_eq_one_of_mem hnd (List.mem_map_of_mem _ he)
    · intro r hr hre
      obtain ⟨e', he', hrel⟩ := forall₂_mem_right hok r hr
      have hnd' : (stMeta.entries.map (fun e => e.path)).Nodup := hnd
      have hpe : e' = e :=
        List.inj_on_of_nodup_map hnd' he' he (hrel.1 ▸ hre)
      subst hpe
      exact ⟨hrel.2.1, hrel.2.2⟩
  · rw [hpaths]
    intro hmem
    exact hdisj hmem (List.mem_singleton_self _)
  · simp [assemble, hMeta]

/-- C1 witness: the small pure build has collision-free entry paths and
the theorem applies to it. -/
theorem C1_manifest_complete_witness :
    stageMeta envA cfgA = .ok stMetaA ∧
    (namelist (write_record envA cfgA stMetaA)).Nodup ∧
    assemble envA cfgA = .ok (write_record envA cfgA stMetaA) :=
  ⟨rfl, by decide, (C1_manifest_complete envA cfgA stMetaA rfl (by decide)).2.2.2.2⟩

/-- C3: the project files collected by `_copy_module` enter the archive
in ascending lexicographic order of archive path — the order of sorted
`pathlib.Path` keys, which compares the component lists — and at every
stage the record list names exactly the written entries in write order
(the final RECORD write appends the manifest as the last physical
entry). -/
theorem C3_write_order (env : FsEnv) (cfg : BuildConfig) (stMeta : BuilderState)
    (hMeta : stageMeta env cfg = .ok stMeta) :
    List.Sorted (fun a b => pathLe a b = true) (namelist (stageCopied env cfg)) ∧
    stMeta.records.map (fun r => r.path) = namelist stMeta ∧
    (write_record env cfg stMeta).records.map (fun r => r.path) =
      namelist (write_record env cfg stMeta) ∧
    (write_record env cfg stMeta).entries =
      stMeta.entries ++
        [genEntry (dist_info cfg ++ ("/RECORD")) (record_content cfg stMeta.records)] := by
  refine ⟨?_, forall₂_paths (stateOk_stageMeta hMeta), ?_, rfl⟩
  · have h1 : namelist (stageCopied env cfg) =
        (sortByRel (to_add env cfg)).map (fun p => p.2) := by
      unfold stageCopied namelist
      rw [copy_module_entries]
      simp [copiedEntry, emptyState, List.map_map, Function.comp]
    rw [h1]
    exact List.Pairwise.map _ (fun a b h => h) (sortByRel_sorted (to_add env cfg))
  · exact forall₂_paths
      ((stateOk_closed env).2 stMeta _ _ (stateOk_stageMeta hMeta))

/-- C3 witness: the ordering facts hold of the small pure build. -/
theorem C3_write_order_witness :
    stageMeta envA cfgA = .ok stMetaA ∧
    List.Sorted (fun a b => pathLe a b = true) (namelist (stageCopied envA cfgA)) ∧
    stMetaA.records.map (fun r => r.path) = namelist stMetaA :=
  ⟨rfl, (C3_write_order envA cfgA stMetaA rfl).1, (C3_write_order envA cfgA stMetaA rfl).2.1⟩

/-- C7: `_write_metadata` writes the entry-points file exactly when the
configuration declares scripts or plugins (and never removes one already
in the archive); the rendered file lists groups in sorted order, entries
within a group in sorted order, and renders `name = target` with the
whitespace around `=` removed. -/
theorem C7_entry_points_file :
    (∀ (env : FsEnv) (cfg : BuildConfig) (st st' : BuilderState),
      write_metadata env cfg st = .ok st' →
      (epPath cfg ∈ namelist st' ↔
        cfg.hasScripts = true ∨ cfg.hasPlugins = true ∨ epPath cfg ∈ namelist st)) ∧
    (∀ eps : List (String × List String),
      List.Sorted (fun a b => strLe a b = true) (epGroups eps) ∧
      List.Perm (epGroups eps) (eps.map (fun p => p.1))) ∧
    (∀ (eps : List (String × List String)) (g : String),
      List.Sorted (fun a b => strLe a b = true) (epEntries eps g)) ∧
    (∀ name target : String, (' ') ∉ name.data → (' ') ∉ target.data →
      removeSpaces (name ++ (" = ") ++ target) = name ++ ("=") ++ target) := by
  refine ⟨?_, ?_, ?_, ?_⟩
  · intro env cfg st st' hok
    rw [write_metadata_namelist hok]
    constructor
    · intro h
      rcases List.mem_append.mp h with h | h
      · rcases List.mem_append.mp h with h | h
        · rcases List.mem_append.mp h with h | h
          · exact Or.inr (Or.inr h)
          · by_cases hsc : (cfg.hasScripts || cfg.hasPlugins) = true
            · rcases Bool.or_eq_true_iff.mp hsc with h1 | h1
              · exact Or.inl h1
              · exact Or.inr (Or.inl h1)
            · rw [if_neg hsc] at h
              cases h
        · obtain ⟨n, hn, hne⟩ := List.mem_map.mp h
          exact absurd hne (license_ne_ep hn)
      · rcases List.mem_cons.mp h with h | h
        · exact absurd h.symm (wheel_ne_ep cfg)
        · have h := List.mem_singleton.mp h
          exact absurd h.symm (metadata_ne_ep cfg)
    · intro h
      apply List.mem_append.mpr
      left
      apply List.mem_append.mpr
      left
      apply List.mem_append.mpr
      rcases h with h | h | h
      · right
        rw [if_pos (show (cfg.hasScripts || cfg.hasPlugins) = true by rw [h]; rfl)]
        exact List.mem_singleton_self _
      · right
        have hc : (cfg.hasScripts || cfg.hasPlugins) = true := by
          rw [h, Bool.or_true]
        rw [if_pos hc]
        exact List.mem_singleton_self _
      · left; exact h
  · intro eps
    exact ⟨sortStrings_sorted _, sortStrings_perm _⟩
  · intro eps g
    exact sortStrings_sorted _
  · intro name target h1 h2
    unfold removeSpaces
    have hd : (name ++ (" = ") ++ target).data =
        name.data ++ (" = ").data ++ target.data := by
      rw [String.data_append, String.data_append]
    rw [hd, List.filter_append, List.filter_append]
    have hn : name.data.filter (fun c => !(c == ' ')) = name.data := by
      rw [List.filter_eq_self]
      intro c hc
      have : c ≠ ' ' := fun hcc => h1 (hcc ▸ hc)
      simp [this]
    have ht : target.data.filter (fun c => !(c == ' ')) = target.data := by
      rw [List.filter_eq_self]
      intro c hc
      have : c ≠ ' ' := fun hcc => h2 (hcc ▸ hc)
      simp [this]
    have hm : (" = " : String).data.filter (fun c => !(c == ' ')) = ("=").data := by
      decide
    rw [hn, ht, hm]
    calc String.mk (name.data ++ ("=" : String).data ++ target.data)
        = String.mk ((name ++ ("=")).data ++ target.data) := by
          rw [String.data_append]
      _ = (name ++ ("=")) ++ target := mk_append _ _

/-- C7 witness: at the concrete scripted configuration the file is
written, and a concrete entry renders with the spaces removed. -/
theorem C7_entry_points_file_witness :
    (write_metadata envA cfgScripts emptyState = .ok stMeta7 ∧
      (epPath cfgScripts ∈ namelist stMeta7 ↔
        cfgScripts.hasScripts = true ∨ cfgScripts.hasPlugins = true ∨
          epPath cfgScripts ∈ namelist emptyState)) ∧
    ((' ') ∉ ("foo" : String).data ∧ (' ') ∉ ("pkg:main" : String).data ∧
      removeSpaces (("foo") ++ (" = ") ++ ("pkg:main")) = ("foo") ++ ("=") ++ ("pkg:main")) := by
  refine ⟨⟨rfl, ?_⟩, by decide, by decide, ?_⟩
  · exact C7_entry_points_file.1 envA cfgScripts emptyState stMeta7 rfl
  · exact C7_entry_points_file.2.2.2 ("foo") ("pkg:main") (by decide) (by decide)

end WheelSpec
